import Mathlib

/-!
Verification of the brake-analysis core of the toyota-hackathon repository.

The Python source is shallowly embedded: pandas/numpy float columns become
exact rationals `ℚ` (a missing value, NaN, becomes `Option.none` where the
source relies on NaN propagation through comparisons), and the geometry code
of `track_rendering.py` / `corner_detection.py`, whose arithmetic involves
`sqrt`, is embedded over the real numbers `ℝ`.

Sections follow the source files:
  * `brake_detection.py`   - `detect_brake_events` (per (vehicle, lap) group)
  * `consistency_analysis.py` - dispersion, driver summary, lap-time merge
  * `data_loaders.py`      - `calculate_brake_threshold` (`np.percentile`)
  * `corner_detection.py`  - zone classification and centerline projection
  * `track_rendering.py`   - `resample_by_distance`
-/

namespace Toyota

/-! ## brake_detection.py -/

/-- One telemetry sample of a single (vehicle, lap) group, already sorted by
timestamp.  `pbrake_f`/`pbrake_r` are the front and rear brake-line pressures;
`none` stands for a NaN entry of the pandas column. -/
structure TelemetrySample where
  pbrake_f : Option ℚ
  pbrake_r : Option ℚ
  x_meters : ℚ
  y_meters : ℚ
deriving DecidableEq, Repr

/-- `df[["pbrake_f", "pbrake_r"]].max(axis=1)`: pandas `max` skips NaN, so a
single populated channel wins, and the result is NaN (`none`) only when both
channels are NaN. -/
def brake_pressure (s : TelemetrySample) : Option ℚ :=
  match s.pbrake_f, s.pbrake_r with
  | some a, some b => some (max a b)
  | some a, none => some a
  | none, some b => some b
  | none, none => none

/-- `np.where(df["pbrake_f"] >= df["pbrake_r"], "front", "rear")`: any
comparison against NaN is False in numpy, so the label is "rear" whenever
either channel (in particular the front one) is NaN. -/
def brake_type (s : TelemetrySample) : String :=
  match s.pbrake_f, s.pbrake_r with
  | some a, some b => if b ≤ a then "front" else "rear"
  | _, _ => "rear"

/-- `df["is_braking"] = df["brake_pressure"] >= threshold`; a NaN combined
pressure compares False. -/
def is_braking (threshold : ℚ) (s : TelemetrySample) : Bool :=
  match brake_pressure s with
  | some p => threshold ≤ p
  | none => false

/-- The columns `detect_brake_events` keeps for an onset row. -/
structure BrakeOnsetEvent where
  x_meters : ℚ
  y_meters : ℚ
  brake_pressure : Option ℚ
  brake_type : String
deriving DecidableEq, Repr

/-- The onset row extracted from the sample at a rising edge. -/
def mkOnsetEvent (s : TelemetrySample) : BrakeOnsetEvent :=
  ⟨s.x_meters, s.y_meters, brake_pressure s, brake_type s⟩

/-- The per-group loop of `detect_brake_events`: `prev` is the shifted
`is_braking` value (`shift(1, fill_value=False)`), and a row is emitted when
`is_braking & ~prev`. -/
def detectAux (threshold : ℚ) (prev : Bool) : List TelemetrySample → List BrakeOnsetEvent
  | [] => []
  | s :: rest =>
    if is_braking threshold s && !prev then
      mkOnsetEvent s :: detectAux threshold (is_braking threshold s) rest
    else
      detectAux threshold (is_braking threshold s) rest

/-- `detect_brake_events` restricted to one (vehicle, lap) group (the source
concatenates the per-group results; the first sample's `prev` is `False` by
`fill_value=False`). -/
def detect_brake_events_group (threshold : ℚ) (samples : List TelemetrySample) :
    List BrakeOnsetEvent :=
  detectAux threshold false samples

/-- Whether the sample at index `i` of the group is braking (False past the
end of the group). -/
def isBrakingAt (threshold : ℚ) (l : List TelemetrySample) (i : ℕ) : Bool :=
  (l[i]?.map (is_braking threshold)).getD false

/-- Index `i` is a rising edge: braking now, not braking at the previous
sample (`prev` at the group's first sample). -/
def risingPred (threshold : ℚ) (prev : Bool) (l : List TelemetrySample) (i : ℕ) : Bool :=
  isBrakingAt threshold l i && !(if i = 0 then prev else isBrakingAt threshold l (i - 1))

/-- The indices of the group's rising edges, first sample treated as
not-braking-before. -/
def risingEdgeIndices (threshold : ℚ) (l : List TelemetrySample) : List ℕ :=
  (List.range l.length).filter (risingPred threshold false l)

lemma isBrakingAt_cons_zero (threshold : ℚ) (s : TelemetrySample) (rest : List TelemetrySample) :
    isBrakingAt threshold (s :: rest) 0 = is_braking threshold s := by
  simp [isBrakingAt]

lemma isBrakingAt_cons_succ (threshold : ℚ) (s : TelemetrySample) (rest : List TelemetrySample)
    (i : ℕ) : isBrakingAt threshold (s :: rest) (i + 1) = isBrakingAt threshold rest i := by
  simp [isBrakingAt]

lemma risingPred_cons_succ (threshold : ℚ) (prev : Bool) (s : TelemetrySample)
    (rest : List TelemetrySample) (i : ℕ) :
    risingPred threshold prev (s :: rest) (i + 1) =
      risingPred threshold (is_braking threshold s) rest i := by
  cases i with
  | zero => simp [risingPred, isBrakingAt]
  | succ j => simp [risingPred, isBrakingAt_cons_succ]

lemma detectAux_eq_risingEdges (threshold : ℚ) (l : List TelemetrySample) :
    ∀ prev : Bool,
      detectAux threshold prev l =
        ((List.range l.length).filter (risingPred threshold prev l)).filterMap
          (fun i => (l[i]?).map mkOnsetEvent) := by
  induction l with
  | nil => intro prev; simp [detectAux]
  | cons s rest ih =>
    intro prev
    have hcomp : (risingPred threshold prev (s :: rest)) ∘ Nat.succ =
        risingPred threshold (is_braking threshold s) rest := by
      funext i
      exact risingPred_cons_succ threshold prev s rest i
    have hp0 : risingPred threshold prev (s :: rest) 0 = (is_braking threshold s && !prev) := by
      simp [risingPred, isBrakingAt]
    have hmap : ((fun i => ((s :: rest)[i]?).map mkOnsetEvent) ∘ Nat.succ) =
        (fun i => (rest[i]?).map mkOnsetEvent) := by
      funext i
      simp [Function.comp]
    rw [List.length_cons, List.range_succ_eq_map, List.filter_cons, hp0]
    cases h : is_braking threshold s && !prev with
    | true =>
      simp only [detectAux, h, if_true]
      rw [List.filter_map, hcomp, List.filterMap_cons]
      rw [List.filterMap_map, hmap, ih (is_braking threshold s)]
      simp
    | false =>
      simp only [detectAux, h, Bool.false_eq_true, if_false]
      rw [List.filter_map, hcomp, List.filterMap_map, hmap, ih (is_braking threshold s)]

/-- C1: per (vehicle, lap) group sorted by timestamp, `detect_brake_events`
emits exactly one onset row per rising edge of `is_braking` (combined
pressure `max(front, rear)` at least the threshold, a sample exactly at the
threshold braking), the row carrying that sample's position, pressure and
type; the first sample is treated as not-braking-before, so a trace crossing
the threshold upward exactly `k` times yields exactly the `k` crossing
samples' rows. -/
theorem detect_brake_events_group_eq_risingEdges (threshold : ℚ)
    (samples : List TelemetrySample) :
    detect_brake_events_group threshold samples =
      (risingEdgeIndices threshold samples).filterMap
        (fun i => (samples[i]?).map mkOnsetEvent) :=
  detectAux_eq_risingEdges threshold samples false

/-- C10: at a sample whose front channel is NaN and whose rear channel is
present, `brake_type` is "rear" (the numpy comparison `front >= rear` is
False against NaN) while the combined pressure is the rear channel's value;
such a one-channel sample can still start an event (third conjunct: a group
whose second sample has only rear pressure 5 above threshold 1 yields exactly
that sample's onset row, labeled "rear"). -/
theorem brake_type_rear_of_missing_front (s : TelemetrySample)
    (h : s.pbrake_f = none) :
    brake_type s = "rear" ∧ brake_pressure s = s.pbrake_r ∧
      detect_brake_events_group 1
          [⟨some 0, some 0, 10, 11⟩, ⟨none, some 5, 20, 21⟩] =
        [⟨20, 21, some 5, "rear"⟩] := by
  refine ⟨?_, ?_, by decide⟩
  · cases hr : s.pbrake_r <;> simp [brake_type, h, hr]
  · cases hr : s.pbrake_r <;> simp [brake_pressure, h, hr]

/-- Witness for `brake_type_rear_of_missing_front` at a concrete one-channel
sample. -/
theorem brake_type_rear_of_missing_front_witness :
    (⟨none, some 5, 20, 21⟩ : TelemetrySample).pbrake_f = none ∧
      (brake_type ⟨none, some 5, 20, 21⟩ = "rear" ∧
        brake_pressure ⟨none, some 5, 20, 21⟩ =
          (⟨none, some 5, 20, 21⟩ : TelemetrySample).pbrake_r ∧
        detect_brake_events_group 1
            [⟨some 0, some 0, 10, 11⟩, ⟨none, some 5, 20, 21⟩] =
          [⟨20, 21, some 5, "rear"⟩]) :=
  ⟨rfl, brake_type_rear_of_missing_front ⟨none, some 5, 20, 21⟩ rfl⟩

/-! ## consistency_analysis.py: calculate_dispersion_by_zone

pandas `.std()` defaults to the sample standard deviation (`ddof=1`), and the
source stores `sqrt` of sums of its squares.  The embedding tracks the exact
squared values (`std_x_sq = std_x²`, `dispersion_sq = dispersion_meters²`):
since `Real.sqrt` is strictly monotone on nonnegative values, every equality
or inequality of the source's values corresponds exactly to the same relation
between the squares. -/

/-- A brake event row as `calculate_dispersion_by_zone` consumes it:
`zone_id` is `none` for an unassigned (NaN) zone. -/
structure ZonedBrakeEvent where
  vehicle_number : ℤ
  zone_id : Option ℤ
  x_meters : ℚ
  y_meters : ℚ
deriving DecidableEq, Repr

/-- One output row of `calculate_dispersion_by_zone`, with the squared values
of `dispersion_meters`, `std_x`, `std_y`. -/
structure DispersionRow where
  vehicle_number : ℤ
  zone_id : ℤ
  dispersion_sq : ℚ
  brake_count : ℕ
  std_x_sq : ℚ
  std_y_sq : ℚ
deriving DecidableEq, Repr

/-- Mean of a pandas series (sum over count). -/
def listMean (l : List ℚ) : ℚ := l.sum / l.length

/-- Square of pandas `Series.std()` (sample variance, `ddof=1`):
`Σ (v - mean)² / (n - 1)`. -/
def sampleVarQ (l : List ℚ) : ℚ :=
  ((l.map (fun v => (v - listMean l) ^ 2)).sum) / ((l.length : ℚ) - 1)

/-- Lexicographic order on (vehicle_number, zone_id) keys, the order pandas
`groupby` sorts group keys in. -/
def pairLe (p q : ℤ × ℤ) : Prop := p.1 < q.1 ∨ (p.1 = q.1 ∧ p.2 ≤ q.2)

instance : DecidableRel pairLe := fun p q => by
  unfold pairLe; infer_instance

/-- `brake_events_df[brake_events_df["zone_id"].notna()]`. -/
def in_zone (events : List ZonedBrakeEvent) : List ZonedBrakeEvent :=
  events.filter (fun e => e.zone_id.isSome)

/-- The sorted distinct (vehicle_number, zone_id) keys of
`in_zone.groupby(["vehicle_number", "zone_id"])`. -/
def zoneKeys (events : List ZonedBrakeEvent) : List (ℤ × ℤ) :=
  List.insertionSort pairLe
    ((in_zone events).filterMap
      (fun e => e.zone_id.map (fun z => (e.vehicle_number, z)))).dedup

/-- The rows of one (vehicle, zone) group, in their original order. -/
def groupOf (events : List ZonedBrakeEvent) (k : ℤ × ℤ) : List ZonedBrakeEvent :=
  events.filter (fun e => decide (e.vehicle_number = k.1) && decide (e.zone_id = some k.2))

/-- The loop body of `calculate_dispersion_by_zone` for one (vehicle, zone)
group: `continue` (`none`) when the group has fewer than 2 rows, otherwise
the row with the sample variances of x and y (`std_x_sq`, `std_y_sq`), their
sum (`dispersion_sq`, the square of `sqrt(std_x² + std_y²)`) and the group
size. -/
def dispersionRowOf (events : List ZonedBrakeEvent) (k : ℤ × ℤ) : Option DispersionRow :=
  if (groupOf (in_zone events) k).length < 2 then none
  else
    some ⟨k.1, k.2,
      sampleVarQ ((groupOf (in_zone events) k).map (·.x_meters)) +
        sampleVarQ ((groupOf (in_zone events) k).map (·.y_meters)),
      (groupOf (in_zone events) k).length,
      sampleVarQ ((groupOf (in_zone events) k).map (·.x_meters)),
      sampleVarQ ((groupOf (in_zone events) k).map (·.y_meters))⟩

/-- `calculate_dispersion_by_zone`: drop events with an unassigned zone, group
by (vehicle_number, zone_id), emit one dispersion row per group of at least 2
events. -/
def calculate_dispersion_by_zone (events : List ZonedBrakeEvent) : List DispersionRow :=
  (zoneKeys events).filterMap (dispersionRowOf events)

/-- The four synthetic brake points of the spec's scenario: vehicle 7,
zone 3, at (0,0), (2,0), (0,2), (2,2). -/
def c2Input : List ZonedBrakeEvent :=
  [⟨7, some 3, 0, 0⟩, ⟨7, some 3, 2, 0⟩, ⟨7, some 3, 0, 2⟩, ⟨7, some 3, 2, 2⟩]

lemma dispersion_c2_eval :
    calculate_dispersion_by_zone c2Input = [⟨7, 3, 8/3, 4, 4/3, 4/3⟩] := by
  have hkeys : zoneKeys c2Input = [(7, 3)] := by decide
  have hg : groupOf (in_zone c2Input) (7, 3) = c2Input := by decide
  have hx : sampleVarQ (c2Input.map (·.x_meters)) = 4/3 := by
    norm_num [c2Input, sampleVarQ, listMean]
  have hy : sampleVarQ (c2Input.map (·.y_meters)) = 4/3 := by
    norm_num [c2Input, sampleVarQ, listMean]
  simp only [calculate_dispersion_by_zone, hkeys, List.filterMap_cons,
    List.filterMap_nil, dispersionRowOf, hg, hx, hy]
  norm_num [c2Input]

/-- C2 counterexample: on the scenario's four points the code's dispersion
row does not have the claimed population values std_x = std_y = 1 and
dispersion = √2 (squares 1, 1 and 2): pandas `.std()` is the sample standard
deviation. -/
theorem dispersion_population_std_counterexample :
    ¬ ∀ r ∈ calculate_dispersion_by_zone c2Input,
        r.std_x_sq = 1 ∧ r.std_y_sq = 1 ∧ r.dispersion_sq = 2 := by
  intro h
  have hmem : (⟨7, 3, 8/3, 4, 4/3, 4/3⟩ : DispersionRow) ∈
      calculate_dispersion_by_zone c2Input := by
    rw [dispersion_c2_eval]
    exact List.mem_singleton_self _
  have := (h _ hmem).1
  norm_num at this

/-- C2 amended: on the four points (0,0), (2,0), (0,2), (2,2) of vehicle 7 in
zone 3, `calculate_dispersion_by_zone` yields one row with the sample
standard deviations std_x = std_y = √(4/3) ≈ 1.1547 (squares 4/3),
dispersion = √(4/3 + 4/3) = √(8/3) ≈ 1.6330 (square 8/3), and
brake_count = 4. -/
theorem dispersion_c2_scenario :
    calculate_dispersion_by_zone c2Input = [⟨7, 3, 8/3, 4, 4/3, 4/3⟩] :=
  dispersion_c2_eval

lemma groupOf_in_zone (events : List ZonedBrakeEvent) (v z : ℤ) :
    groupOf (in_zone events) (v, z) = groupOf events (v, z) := by
  unfold groupOf in_zone
  rw [List.filter_filter]
  apply List.filter_congr
  intro e _
  cases hz : e.zone_id <;> simp [hz]

/-- C7: unassigned-zone events are discarded and a (vehicle, zone) group
appears in the dispersion table precisely when it has at least 2 events (its
row then carries total, defined rational statistics by construction);
`groupOf events (v, z)` is the list of events of vehicle `v` whose assigned
zone is `z`, so events with `zone_id = none` count towards no group. -/
theorem dispersion_min_sample_rule (events : List ZonedBrakeEvent) (v z : ℤ) :
    (∃ r ∈ calculate_dispersion_by_zone events,
        r.vehicle_number = v ∧ r.zone_id = z) ↔
      2 ≤ (groupOf events (v, z)).length := by
  have hgz : groupOf (in_zone events) (v, z) = groupOf events (v, z) :=
    groupOf_in_zone events v z
  constructor
  · rintro ⟨r, hr, hv, hz⟩
    rw [calculate_dispersion_by_zone, List.mem_filterMap] at hr
    obtain ⟨k, hk, hf⟩ := hr
    rw [dispersionRowOf] at hf
    by_cases hlen : (groupOf (in_zone events) k).length < 2
    · rw [if_pos hlen] at hf
      exact absurd hf (by simp)
    · rw [if_neg hlen] at hf
      obtain rfl := Option.some.inj hf
      have hk1 : k.1 = v := hv
      have hk2 : k.2 = z := hz
      have hkvz : k = (v, z) := Prod.ext hk1 hk2
      rw [hkvz, hgz] at hlen
      omega
  · intro h2
    have hlen : ¬ (groupOf (in_zone events) (v, z)).length < 2 := by
      rw [hgz]; omega
    have hpos : 0 < (groupOf events (v, z)).length := by omega
    obtain ⟨e, he⟩ := List.exists_mem_of_length_pos hpos
    obtain ⟨hee, hpe⟩ := List.mem_filter.mp he
    rw [Bool.and_eq_true, decide_eq_true_eq, decide_eq_true_eq] at hpe
    obtain ⟨hvv, hzz⟩ := hpe
    have hkmem : (v, z) ∈ zoneKeys events := by
      unfold zoneKeys
      rw [(List.perm_insertionSort pairLe _).mem_iff, List.mem_dedup,
        List.mem_filterMap]
      refine ⟨e, List.mem_filter.mpr ⟨hee, by simp [hzz]⟩, ?_⟩
      rw [hzz, hvv]
      rfl
    obtain ⟨r, hr⟩ : ∃ r, dispersionRowOf events (v, z) = some r := by
      rw [dispersionRowOf, if_neg hlen]
      exact ⟨_, rfl⟩
    refine ⟨r, ?_, ?_, ?_⟩
    · rw [calculate_dispersion_by_zone, List.mem_filterMap]
      exact ⟨(v, z), hkmem, hr⟩
    · rw [dispersionRowOf, if_neg hlen] at hr
      obtain rfl := Option.some.inj hr
      rfl
    · rw [dispersionRowOf, if_neg hlen] at hr
      obtain rfl := Option.some.inj hr
      rfl

/-! ## consistency_analysis.py: calculate_driver_summary -/

/-- A row of the dispersion table as `calculate_driver_summary` consumes it
(the `dispersion_meters` column is just a number to this function). -/
structure ZoneDispersionRow where
  vehicle_number : ℤ
  zone_id : ℤ
  dispersion_meters : ℚ
  brake_count : ℕ
deriving DecidableEq, Repr

/-- One row of the driver summary. -/
structure DriverSummary where
  vehicle_number : ℤ
  avg_dispersion_meters : ℚ
  zone_count : ℕ
  total_brake_count : ℕ
deriving DecidableEq, Repr

/-- The sorted distinct vehicle numbers of `groupby("vehicle_number")`. -/
def vehicleKeys (rows : List ZoneDispersionRow) : List ℤ :=
  List.insertionSort (· ≤ ·) ((rows.map (·.vehicle_number)).dedup)

/-- One vehicle's rows, in their original order. -/
def vehicleGroup (rows : List ZoneDispersionRow) (v : ℤ) : List ZoneDispersionRow :=
  rows.filter (fun r => decide (r.vehicle_number = v))

/-- `calculate_driver_summary`: per vehicle the mean of its per-zone
dispersion values, the count of its rows (`zone_id` is never null here) and
the sum of its per-zone event counts. -/
def calculate_driver_summary (rows : List ZoneDispersionRow) : List DriverSummary :=
  (vehicleKeys rows).map (fun v =>
    ⟨v, listMean ((vehicleGroup rows v).map (·.dispersion_meters)),
      (vehicleGroup rows v).length,
      ((vehicleGroup rows v).map (·.brake_count)).sum⟩)

/-- C6: every driver-summary row's average is the unweighted mean of that
vehicle's per-zone dispersion values with zone_count their number and
total_brake_count their summed event counts (first conjunct); the average,
vehicle and zone count do not depend on the per-zone event counts at all
(second conjunct, for an arbitrary rewrite `f` of the `brake_count` column);
and a driver with zone dispersions {3, 5} averages 4 (third conjunct, with
deliberately lopsided event counts 10 and 999). -/
theorem driver_summary_unweighted_mean (rows : List ZoneDispersionRow) :
    (∀ s ∈ calculate_driver_summary rows,
        s.avg_dispersion_meters =
          ((vehicleGroup rows s.vehicle_number).map (·.dispersion_meters)).sum /
            ((vehicleGroup rows s.vehicle_number).length : ℚ) ∧
        s.zone_count = (vehicleGroup rows s.vehicle_number).length ∧
        s.total_brake_count =
          ((vehicleGroup rows s.vehicle_number).map (·.brake_count)).sum) ∧
    (∀ f : ZoneDispersionRow → ℕ,
        (calculate_driver_summary
            (rows.map (fun r => ⟨r.vehicle_number, r.zone_id, r.dispersion_meters, f r⟩))).map
            (fun s => (s.vehicle_number, s.avg_dispersion_meters, s.zone_count)) =
          (calculate_driver_summary rows).map
            (fun s => (s.vehicle_number, s.avg_dispersion_meters, s.zone_count))) ∧
    calculate_driver_summary [⟨9, 1, 3, 10⟩, ⟨9, 2, 5, 999⟩] = [⟨9, 4, 2, 1009⟩] := by
  refine ⟨?_, ?_, ?_⟩
  · intro s hs
    rw [calculate_driver_summary, List.mem_map] at hs
    obtain ⟨v, _, rfl⟩ := hs
    exact ⟨by simp [listMean], rfl, rfl⟩
  · intro f
    have hkeys : vehicleKeys
        (rows.map (fun r => ⟨r.vehicle_number, r.zone_id, r.dispersion_meters, f r⟩)) =
        vehicleKeys rows := by
      unfold vehicleKeys
      rw [List.map_map]
      rfl
    have hgroup : ∀ v, vehicleGroup
        (rows.map (fun r => ⟨r.vehicle_number, r.zone_id, r.dispersion_meters, f r⟩)) v =
        (vehicleGroup rows v).map
          (fun r => ⟨r.vehicle_number, r.zone_id, r.dispersion_meters, f r⟩) := by
      intro v
      unfold vehicleGroup
      rw [List.filter_map]
      rfl
    simp only [calculate_driver_summary, hkeys, hgroup, List.map_map, List.length_map]
    rfl
  · have hkeys : vehicleKeys [⟨9, 1, 3, 10⟩, ⟨9, 2, 5, 999⟩] = [9] := by decide
    have hgrp : vehicleGroup [⟨9, 1, 3, 10⟩, ⟨9, 2, 5, 999⟩] 9 =
        [⟨9, 1, 3, 10⟩, ⟨9, 2, 5, 999⟩] := by decide
    simp only [calculate_driver_summary, hkeys, hgrp, List.map_cons, List.map_nil]
    norm_num [listMean]

/-! ## consistency_analysis.py: add_lap_times

Python strings are embedded as `List Char`.  `str.split(sep)` keeps empty
parts and splits on every occurrence; `int(...)`/`float(...)` are modelled on
plain decimal literals (optionally signed integers, `digits[.digits]`
floats), which covers every value the "M:SS.mmm" lap-time column can hold;
any other content makes the parse fail, exactly as the `except` branch of
`lap_time_to_seconds` maps any parse error to NaN. -/

/-- Python `str.split(sep)` for a one-character separator: keeps empty
parts, `"".split(sep) == [""]`. -/
def splitOnChar (sep : Char) : List Char → List (List Char)
  | [] => [[]]
  | c :: rest =>
    if c = sep then [] :: splitOnChar sep rest
    else
      match splitOnChar sep rest with
      | [] => [[c]]
      | g :: gs => (c :: g) :: gs

/-- The value of a decimal digit, `none` for any other character. -/
def digitVal (c : Char) : Option ℕ :=
  if '0' ≤ c ∧ c ≤ '9' then some (c.toNat - 48) else none

def parseNatAux : List Char → ℕ → Option ℕ
  | [], acc => some acc
  | c :: rest, acc =>
    match digitVal c with
    | some d => parseNatAux rest (acc * 10 + d)
    | none => none

/-- A nonempty all-digit string as a natural number. -/
def parseNat? (cs : List Char) : Option ℕ :=
  if cs.isEmpty then none else parseNatAux cs 0

/-- Python `int(...)` on a decimal literal with an optional minus sign. -/
def parseInt? (cs : List Char) : Option ℤ :=
  match cs with
  | '-' :: rest => (parseNat? rest).map (fun n => -(n : ℤ))
  | _ => (parseNat? cs).map (fun n => (n : ℤ))

/-- Python `float(...)` on a plain decimal literal `digits[.digits]`. -/
def parseFloat? (cs : List Char) : Option ℚ :=
  match splitOnChar '.' cs with
  | [a] => (parseNat? a).map (fun n => (n : ℚ))
  | [a, b] =>
    match parseNat? a, parseNat? b with
    | some i, some fr => some ((i : ℚ) + (fr : ℚ) / (10 : ℚ) ^ b.length)
    | _, _ => none
  | _ => none

/-- `lap_time_to_seconds` of `add_lap_times`: NaN (`none`) or `""` stays NaN;
otherwise split on ":", `int(parts[0]) * 60 + float(parts[1])`, any parse
failure (missing `parts[1]` included) caught to NaN. -/
def lap_time_to_seconds (t : Option (List Char)) : Option ℚ :=
  match t with
  | none => none
  | some cs =>
    if cs.isEmpty then none
    else
      match splitOnChar ':' cs with
      | p0 :: p1 :: _ =>
        match parseInt? p0, parseFloat? p1 with
        | some m, some sec => some ((m : ℚ) * 60 + sec)
        | _, _ => none
      | _ => none

/-- A row of the USAC results table: car `NUMBER` and the `FL_TIME` string
(`none` for a NaN cell). -/
structure UsacRow where
  vehicle_number : ℤ
  fl_time : Option (List Char)
deriving DecidableEq, Repr

/-- A row of `add_lap_times`'s output: the driver-summary row with the two
merged columns (both `none` when the left join found no match or the time
string did not parse). -/
structure MergedSummaryRow where
  summary : DriverSummary
  fastest_lap_time : Option (List Char)
  fastest_lap_seconds : Option ℚ
deriving DecidableEq, Repr

/-- `add_lap_times`: a `how="left"` merge of the driver summary with the USAC
rows on vehicle number — every summary row is retained, unmatched rows get
NaN (`none`) time columns, and each match contributes one output row. -/
def add_lap_times (summary : List DriverSummary) (usac : List UsacRow) :
    List MergedSummaryRow :=
  summary.flatMap (fun s =>
    let ms := usac.filter (fun u => decide (u.vehicle_number = s.vehicle_number))
    if ms.isEmpty then [⟨s, none, none⟩]
    else ms.map (fun u => ⟨s, u.fl_time, lap_time_to_seconds u.fl_time⟩))

/-- C8: "1:37.428" parses to 97.428 s (minutes split off at the first colon,
times 60, plus seconds); "DNF", "" and a missing value parse to `none`, not
an error; and the left merge retains every driver of the summary, with the
lap-time columns of an unmatched driver left `none`. -/
theorem lap_time_parse_and_merge :
    lap_time_to_seconds (some "1:37.428".toList) = some (97428 / 1000) ∧
    lap_time_to_seconds (some "DNF".toList) = none ∧
    lap_time_to_seconds (some "".toList) = none ∧
    lap_time_to_seconds none = none ∧
    (∀ (summary : List DriverSummary) (usac : List UsacRow),
      ∀ s ∈ summary, ∃ m ∈ add_lap_times summary usac,
        m.summary = s ∧
          (usac.filter (fun u => decide (u.vehicle_number = s.vehicle_number)) = [] →
            m.fastest_lap_time = none ∧ m.fastest_lap_seconds = none)) := by
  refine ⟨?_, by decide, by decide, rfl, ?_⟩
  · have hsplit : splitOnChar ':' ['1', ':', '3', '7', '.', '4', '2', '8'] =
        [['1'], ['3', '7', '.', '4', '2', '8']] := by decide
    have hm : parseInt? ['1'] = some 1 := by decide
    have hfsplit : splitOnChar '.' ['3', '7', '.', '4', '2', '8'] =
        [['3', '7'], ['4', '2', '8']] := by decide
    have ha : parseNat? ['3', '7'] = some 37 := by decide
    have hb : parseNat? ['4', '2', '8'] = some 428 := by decide
    have hne : ("1:37.428".toList).isEmpty = false := by decide
    have hsec : parseFloat? ['3', '7', '.', '4', '2', '8'] =
        some ((37 : ℚ) + (428 : ℚ) / (10 : ℚ) ^ (3 : ℕ)) := by
      simp [parseFloat?, hfsplit, ha, hb]
    simp [lap_time_to_seconds, hne, hsplit, hm, hsec]
    norm_num
  · intro summary usac s hs
    by_cases hempty :
        (usac.filter (fun u => decide (u.vehicle_number = s.vehicle_number))).isEmpty
    · refine ⟨⟨s, none, none⟩, ?_, rfl, fun _ => ⟨rfl, rfl⟩⟩
      rw [add_lap_times, List.mem_flatMap]
      exact ⟨s, hs, by rw [if_pos hempty]; exact List.mem_singleton_self _⟩
    · have hne : usac.filter (fun u => decide (u.vehicle_number = s.vehicle_number)) ≠ [] := by
        intro h
        rw [h] at hempty
        exact hempty rfl
      obtain ⟨u, hu⟩ := List.exists_mem_of_ne_nil _ hne
      refine ⟨⟨s, u.fl_time, lap_time_to_seconds u.fl_time⟩, ?_, rfl, fun hcon => ?_⟩
      · rw [add_lap_times, List.mem_flatMap]
        refine ⟨s, hs, ?_⟩
        rw [if_neg (by simpa using hempty)]
        exact List.mem_map_of_mem _ hu
      · exact absurd hcon hne

/-! ## data_loaders.py: calculate_brake_threshold -/

/-- `np.percentile(values, p)` with the default linear interpolation: sort,
let `h = (n-1)*p/100`, and interpolate between the values at positions
`⌊h⌋` and `⌊h⌋+1` (the latter clamped to the last element, reached with
weight 0 exactly when `h` is the last index). -/
def percentile (values : List ℚ) (p : ℚ) : ℚ :=
  let s := List.insertionSort (· ≤ ·) values
  let h : ℚ := ((s.length : ℚ) - 1) * p / 100
  let k : ℕ := (Int.floor h).toNat
  let lo := s.getD k 0
  let hi := s.getD (k + 1) lo
  lo + (h - (k : ℚ)) * (hi - lo)

/-- `pd.concat([df["pbrake_f"].dropna(), df["pbrake_r"].dropna()])`: the two
pressure channels pooled, NaNs dropped — note nonpositive readings are NOT
dropped. -/
def pooled_brake_pressures (df : List TelemetrySample) : List ℚ :=
  df.filterMap (·.pbrake_f) ++ df.filterMap (·.pbrake_r)

/-- `calculate_brake_threshold(df, percentile)`:
`np.percentile(all_brake_pressures, percentile)`. -/
def calculate_brake_threshold (df : List TelemetrySample) (p : ℚ) : ℚ :=
  percentile (pooled_brake_pressures df) p

/-- The threshold the spec describes (second definition for the refinement
comparison, following the spec's words): the percentile of only the strictly
positive pooled brake-pressure readings. -/
def spec_positive_threshold (df : List TelemetrySample) (p : ℚ) : ℚ :=
  percentile ((pooled_brake_pressures df).filter (fun v => decide (0 < v))) p

/-- A failing input for C3: three samples at rest (front pressure exactly 0)
and one braking sample at 10 bar, rear channel NaN throughout. -/
def c3Input : List TelemetrySample :=
  [⟨some 0, none, 0, 0⟩, ⟨some 0, none, 0, 0⟩, ⟨some 0, none, 0, 0⟩,
    ⟨some 10, none, 0, 0⟩]

/-- C3: `calculate_brake_threshold` takes the 5th percentile over ALL non-NaN
pooled readings, zeros included, returning 0 on `c3Input`, whereas the
documented threshold — the 5th percentile of the strictly positive readings —
is 10; the caller's own banner ("Using P5 of positive pressures") is
contradicted by the code. -/
theorem brake_threshold_counts_nonpositive :
    calculate_brake_threshold c3Input 5 = 0 ∧
    spec_positive_threshold c3Input 5 = 10 ∧
    calculate_brake_threshold c3Input 5 ≠ spec_positive_threshold c3Input 5 := by
  have hsortall : List.insertionSort (· ≤ ·) (pooled_brake_pressures c3Input) =
      [0, 0, 0, 10] := by decide
  have hsortpos : List.insertionSort (· ≤ ·)
      ((pooled_brake_pressures c3Input).filter (fun v => decide (0 < v))) = [10] := by
    decide
  have h1 : calculate_brake_threshold c3Input 5 = 0 := by
    rw [calculate_brake_threshold, percentile, hsortall]
    norm_num [Int.floor_eq_iff]
  have h2 : spec_positive_threshold c3Input 5 = 10 := by
    rw [spec_positive_threshold, percentile, hsortpos]
    norm_num
  refine ⟨h1, h2, ?_⟩
  rw [h1, h2]
  norm_num

/-! ## corner_detection.py: assign_to_zones (interval classification) -/

/-- One record of the zone-definitions list. -/
structure ZoneDef where
  zone_id : ℤ
  start_distance_m : ℚ
  end_distance_m : ℚ
deriving DecidableEq, Repr

/-- The zone's closed interval `[start_distance_m, end_distance_m]` contains
the distance. -/
def zoneContains (z : ZoneDef) (d : ℚ) : Prop :=
  z.start_distance_m ≤ d ∧ d ≤ z.end_distance_m

instance (z : ZoneDef) (d : ℚ) : Decidable (zoneContains z d) := by
  unfold zoneContains; infer_instance

/-- `assign_zone` of `assign_to_zones`: iterate the zone definitions in list
order, return the first whose closed interval contains the distance, `None`
when no interval does. -/
def assign_zone (zones : List ZoneDef) (d : ℚ) : Option ℤ :=
  match zones with
  | [] => none
  | z :: rest => if zoneContains z d then some z.zone_id else assign_zone rest d

lemma assign_zone_some_iff (zones : List ZoneDef) (d : ℚ) (zid : ℤ) :
    assign_zone zones d = some zid ↔
      ∃ pre z post, zones = pre ++ z :: post ∧ z.zone_id = zid ∧
        zoneContains z d ∧ ∀ z' ∈ pre, ¬ zoneContains z' d := by
  induction zones with
  | nil =>
    simp [assign_zone]
  | cons z rest ih =>
    by_cases hc : zoneContains z d
    · simp only [assign_zone, if_pos hc, Option.some.injEq]
      constructor
      · intro h
        exact ⟨[], z, rest, rfl, h, hc, by simp⟩
      · rintro ⟨pre, z', post, hdec, hzid, hz', hpre⟩
        cases pre with
        | nil =>
          simp only [List.nil_append, List.cons.injEq] at hdec
          rw [← hdec.1] at hzid
          exact hzid
        | cons p pre' =>
          simp only [List.cons_append, List.cons.injEq] at hdec
          exact absurd (hdec.1 ▸ hc) (by simpa using hpre p (by simp))
    · simp only [assign_zone, if_neg hc]
      rw [ih]
      constructor
      · rintro ⟨pre, z', post, hdec, hzid, hz', hpre⟩
        refine ⟨z :: pre, z', post, by rw [hdec, List.cons_append], hzid, hz', ?_⟩
        intro p hp
        rcases List.mem_cons.mp hp with h | h
        · rw [h]; exact hc
        · exact hpre p h
      · rintro ⟨pre, z', post, hdec, hzid, hz', hpre⟩
        cases pre with
        | nil =>
          simp only [List.nil_append, List.cons.injEq] at hdec
          exact absurd (hdec.1 ▸ hz') hc
        | cons p pre' =>
          simp only [List.cons_append, List.cons.injEq] at hdec
          exact ⟨pre', z', post, hdec.2, hzid, hz',
            fun q hq => hpre q (List.mem_cons_of_mem p hq)⟩

/-- The spec's overlapping example: zone 1 on [0, 10], zone 2 on [5, 15]. -/
def overlapZones : List ZoneDef := [⟨1, 0, 10⟩, ⟨2, 5, 15⟩]

/-- C4: a brake event's zone is the first zone in list order whose closed
interval `[start_distance_m, end_distance_m]` contains its track distance
(first conjunct: some-result characterization; second conjunct: `none`
exactly when no interval contains the distance — not an error); with the
overlapping zones {1: [0,10], 2: [5,15]}, distance 7 gets zone 1 and
distance 20 gets no zone. -/
theorem assign_zone_first_match (zones : List ZoneDef) (d : ℚ) :
    (∀ zid : ℤ, assign_zone zones d = some zid ↔
      ∃ pre z post, zones = pre ++ z :: post ∧ z.zone_id = zid ∧
        zoneContains z d ∧ ∀ z' ∈ pre, ¬ zoneContains z' d) ∧
    (assign_zone zones d = none ↔ ∀ z ∈ zones, ¬ zoneContains z d) ∧
    assign_zone overlapZones 7 = some 1 ∧
    assign_zone overlapZones 20 = none := by
  refine ⟨fun zid => assign_zone_some_iff zones d zid, ?_, by decide, by decide⟩
  induction zones with
  | nil => simp [assign_zone]
  | cons z rest ih =>
    by_cases hc : zoneContains z d
    · simp [assign_zone, if_pos hc, hc]
    · simp only [assign_zone, if_neg hc]
      rw [ih]
      constructor
      · intro h p hp
        rcases List.mem_cons.mp hp with h1 | h1
        · rw [h1]; exact hc
        · exact h p h1
      · intro h p hp
        exact h p (List.mem_cons_of_mem z hp)

/-! ## Geometry (corner_detection.py, track_rendering.py)

The geometry code works with `sqrt`, so it is embedded over `ℝ` (numpy's
floats idealized as exact reals; the defs are noncomputable through
`Real.sqrt` and the classical order on `ℝ`). -/

/-- Euclidean distance between two points, `np.sqrt(dx**2 + dy**2)`. -/
noncomputable def eucDist (p q : ℝ × ℝ) : ℝ :=
  Real.sqrt ((p.1 - q.1) ^ 2 + (p.2 - q.2) ^ 2)

/-- The consecutive segment lengths of a polyline
(`np.sqrt(np.diff(x)**2 + np.diff(y)**2)`). -/
noncomputable def segmentLengths (pts : List (ℝ × ℝ)) : List ℝ :=
  (pts.zip pts.tail).map (fun pq => eucDist pq.1 pq.2)

/-- `np.concatenate([[0], np.cumsum(segment_lengths)])`. -/
noncomputable def cumulative_distance (pts : List (ℝ × ℝ)) : List ℝ :=
  (segmentLengths pts).scanl (· + ·) 0

/-- The polyline's total arc length (last cumulative distance). -/
noncomputable def totalLength (pts : List (ℝ × ℝ)) : ℝ :=
  (cumulative_distance pts).getLast?.getD 0

/-- `np.argmin`: the first index of the minimum of a nonempty list (0 on an
empty list). -/
def firstMinIdx {α : Type} [LinearOrder α] : List α → ℕ
  | [] => 0
  | [_] => 0
  | a :: b :: rest =>
    if (b :: rest).getD (firstMinIdx (b :: rest)) a < a then
      firstMinIdx (b :: rest) + 1
    else 0

/-- `project_to_centerline` for a single query point: Euclidean distance to
every centerline station, `argmin`, and that station's cumulative
distance. -/
noncomputable def project_to_centerline (cs : List (ℝ × ℝ)) (p : ℝ × ℝ) : ℝ :=
  (cumulative_distance cs).getD (firstMinIdx (cs.map (eucDist p))) 0

lemma firstMinIdx_lt_length {α : Type} [LinearOrder α] :
    ∀ (l : List α), l ≠ [] → firstMinIdx l < l.length
  | [], h => absurd rfl h
  | [_], _ => by simp [firstMinIdx]
  | _ :: b :: rest, _ => by
    rw [firstMinIdx]
    split
    · have := firstMinIdx_lt_length (b :: rest) (by simp)
      simpa using Nat.succ_lt_succ this
    · simp

lemma firstMinIdx_le {α : Type} [LinearOrder α] :
    ∀ (l : List α) (d : α) (i : ℕ), i < l.length →
      l.getD (firstMinIdx l) d ≤ l.getD i d
  | [], _, i, hi => absurd hi (by simp)
  | [a], d, i, hi => by
    have hi0 : i = 0 := by simpa using Nat.lt_one_iff.mp (by simpa using hi)
    subst hi0
    simp [firstMinIdx]
  | a :: b :: rest, d, i, hi => by
    have hlt := firstMinIdx_lt_length (b :: rest) (by simp)
    have hdd : (b :: rest).getD (firstMinIdx (b :: rest)) a =
        (b :: rest).getD (firstMinIdx (b :: rest)) d := by
      rw [List.getD_eq_getElem _ _ hlt, List.getD_eq_getElem _ _ hlt]
    rw [firstMinIdx]
    split
    · rename_i h
      rw [hdd] at h
      cases i with
      | zero =>
        simpa using le_of_lt h
      | succ i' =>
        have := firstMinIdx_le (b :: rest) d i' (by simpa using hi)
        simpa using this
    · rename_i h
      rw [hdd] at h
      push_neg at h
      cases i with
      | zero => simp
      | succ i' =>
        have := firstMinIdx_le (b :: rest) d i' (by simpa using hi)
        simpa using le_trans h this

lemma firstMinIdx_first {α : Type} [LinearOrder α] :
    ∀ (l : List α) (d : α) (i : ℕ), i < firstMinIdx l →
      l.getD (firstMinIdx l) d < l.getD i d
  | [], _, i, hi => absurd hi (by simp [firstMinIdx])
  | [a], d, i, hi => absurd hi (by simp [firstMinIdx])
  | a :: b :: rest, d, i, hi => by
    have hlt := firstMinIdx_lt_length (b :: rest) (by simp)
    have hdd : (b :: rest).getD (firstMinIdx (b :: rest)) a =
        (b :: rest).getD (firstMinIdx (b :: rest)) d := by
      rw [List.getD_eq_getElem _ _ hlt, List.getD_eq_getElem _ _ hlt]
    rw [firstMinIdx] at hi ⊢
    split
    · rename_i h
      rw [hdd] at h
      rw [if_pos (hdd ▸ h)] at hi
      cases i with
      | zero => simpa using h
      | succ i' =>
        have := firstMinIdx_first (b :: rest) d i' (by omega)
        simpa using this
    · rename_i h
      rw [if_neg (by rwa [hdd] at h ⊢)] at hi
      omega

lemma scanl_add_getD :
    ∀ (l : List ℝ) (c : ℝ) (i : ℕ), i < (l.scanl (· + ·) c).length →
      (l.scanl (· + ·) c).getD i 0 = c + (l.take i).sum
  | [], c, 0, _ => by simp
  | [], c, i + 1, hi => by simp at hi
  | x :: xs, c, 0, _ => by simp [List.scanl]
  | x :: xs, c, i + 1, hi => by
    rw [List.scanl]
    have := scanl_add_getD xs (c + x) i (by simpa [List.length_scanl] using hi)
    simp only [List.getD_cons_succ, this, List.take_succ_cons, List.sum_cons]
    ring

lemma getLast?_scanl_add (l : List ℝ) (c : ℝ) :
    ((l.scanl (· + ·) c).getLast?).getD 0 = c + l.sum := by
  have hlen : (l.scanl (· + ·) c).length = l.length + 1 := List.length_scanl c l
  rw [List.getLast?_eq_getElem?]
  rw [← List.getD_eq_getElem?_getD]
  rw [hlen]
  simp only [Nat.add_sub_cancel]
  rw [scanl_add_getD l c l.length (by omega), List.take_length]

lemma segmentLengths_length (pts : List (ℝ × ℝ)) :
    (segmentLengths pts).length = pts.length - 1 := by
  simp [segmentLengths, List.length_zip]

lemma segmentLengths_nonneg (pts : List (ℝ × ℝ)) :
    ∀ x ∈ segmentLengths pts, 0 ≤ x := by
  intro x hx
  rw [segmentLengths, List.mem_map] at hx
  obtain ⟨pq, _, rfl⟩ := hx
  exact Real.sqrt_nonneg _

lemma cumulative_distance_le (pts : List (ℝ × ℝ)) (i : ℕ)
    (hi : i < (cumulative_distance pts).length) :
    0 ≤ (cumulative_distance pts).getD i 0 ∧
      (cumulative_distance pts).getD i 0 ≤ totalLength pts := by
  have hval := scanl_add_getD (segmentLengths pts) 0 i hi
  have htot : totalLength pts = (segmentLengths pts).sum := by
    rw [totalLength, cumulative_distance, getLast?_scanl_add]
    ring
  have hsplit := List.sum_take_add_sum_drop (segmentLengths pts) i
  have htake : 0 ≤ ((segmentLengths pts).take i).sum :=
    List.sum_nonneg (fun x hx => segmentLengths_nonneg pts x (List.take_subset i _ hx))
  have hdrop : 0 ≤ ((segmentLengths pts).drop i).sum :=
    List.sum_nonneg (fun x hx => segmentLengths_nonneg pts x (List.drop_subset i _ hx))
  rw [cumulative_distance, hval, htot]
  constructor
  · linarith
  · linarith

/-- C5: for every query point and nonempty centerline,
`project_to_centerline` returns the cumulative arc length of a nearest
station (first and second conjuncts), ties going to the lowest station index
(third conjunct: every earlier station is strictly farther), and the result
always lies in `[0, totalLength]` (the function is total — it never
fails). -/
theorem project_to_centerline_spec (cs : List (ℝ × ℝ)) (p : ℝ × ℝ)
    (hcs : cs ≠ []) :
    ∃ i : ℕ, ∃ hi : i < cs.length,
      project_to_centerline cs p = (cumulative_distance cs).getD i 0 ∧
      (∀ j < cs.length, eucDist p (cs.get ⟨i, hi⟩) ≤ eucDist p (cs.getD j (0, 0))) ∧
      (∀ j < i, eucDist p (cs.get ⟨i, hi⟩) < eucDist p (cs.getD j (0, 0))) ∧
      0 ≤ project_to_centerline cs p ∧
      project_to_centerline cs p ≤ totalLength cs := by
  set l := cs.map (eucDist p) with hl
  have hlen : l.length = cs.length := List.length_map cs (eucDist p)
  have hlne : l ≠ [] := by
    simp only [hl, ne_eq, List.map_eq_nil_iff]
    exact hcs
  have hi : firstMinIdx l < cs.length := hlen ▸ firstMinIdx_lt_length l hlne
  have hld : ∀ j (hj : j < cs.length), l.getD j 0 = eucDist p (cs.getD j (0, 0)) := by
    intro j hj
    rw [List.getD_eq_getElem l 0 (by omega), List.getD_eq_getElem cs (0, 0) hj]
    simp [hl]
  have hgi : eucDist p (cs.get ⟨firstMinIdx l, hi⟩) = l.getD (firstMinIdx l) 0 := by
    rw [hld (firstMinIdx l) hi]
    congr 1
    rw [List.getD_eq_getElem cs (0, 0) hi]
    rfl
  have hcumlen : firstMinIdx l < (cumulative_distance cs).length := by
    rw [cumulative_distance, List.length_scanl, segmentLengths_length]
    omega
  obtain ⟨h0, h1⟩ := cumulative_distance_le cs (firstMinIdx l) hcumlen
  refine ⟨firstMinIdx l, hi, rfl, ?_, ?_, h0, h1⟩
  · intro j hj
    rw [hgi, ← hld j hj]
    exact firstMinIdx_le l 0 j (by omega)
  · intro j hj
    have hjlen : j < cs.length := lt_trans hj hi
    rw [hgi, ← hld j hjlen]
    exact firstMinIdx_first l 0 j hj

/-- Witness for `project_to_centerline_spec` on a one-station centerline. -/
theorem project_to_centerline_spec_witness :
    ([((0 : ℝ), (0 : ℝ))] ≠ []) ∧
      (∃ i : ℕ, ∃ hi : i < [((0 : ℝ), (0 : ℝ))].length,
        project_to_centerline [((0 : ℝ), (0 : ℝ))] ((3 : ℝ), (4 : ℝ)) =
          (cumulative_distance [((0 : ℝ), (0 : ℝ))]).getD i 0 ∧
        (∀ j < [((0 : ℝ), (0 : ℝ))].length,
          eucDist ((3 : ℝ), (4 : ℝ)) ([((0 : ℝ), (0 : ℝ))].get ⟨i, hi⟩) ≤
            eucDist ((3 : ℝ), (4 : ℝ)) ([((0 : ℝ), (0 : ℝ))].getD j (0, 0))) ∧
        (∀ j < i,
          eucDist ((3 : ℝ), (4 : ℝ)) ([((0 : ℝ), (0 : ℝ))].get ⟨i, hi⟩) <
            eucDist ((3 : ℝ), (4 : ℝ)) ([((0 : ℝ), (0 : ℝ))].getD j (0, 0))) ∧
        0 ≤ project_to_centerline [((0 : ℝ), (0 : ℝ))] ((3 : ℝ), (4 : ℝ)) ∧
        project_to_centerline [((0 : ℝ), (0 : ℝ))] ((3 : ℝ), (4 : ℝ)) ≤
          totalLength [((0 : ℝ), (0 : ℝ))]) :=
  ⟨List.cons_ne_nil _ _,
    project_to_centerline_spec [((0 : ℝ), (0 : ℝ))] ((3 : ℝ), (4 : ℝ))
      (List.cons_ne_nil _ _)⟩

/-! ## track_rendering.py: resample_by_distance -/

/-- The spike-removal pass: segment lengths are computed once on the input,
and every point following a segment longer than `spike_threshold_m` is
dropped (`keep_mask[spike_indices + 1] = False`); the first point is always
kept. -/
noncomputable def removeSpikes (pts : List (ℝ × ℝ)) (thr : ℝ) : List (ℝ × ℝ) :=
  match pts with
  | [] => []
  | p :: rest =>
    p :: ((((p :: rest).zip rest).filter
      (fun pq => decide (eucDist pq.1 pq.2 ≤ thr))).map Prod.snd)

/-- The duplicate-removal pass on the spike-cleaned list: every point
following a segment shorter than `1e-6` is dropped. -/
noncomputable def removeDups (pts : List (ℝ × ℝ)) : List (ℝ × ℝ) :=
  match pts with
  | [] => []
  | p :: rest =>
    p :: ((((p :: rest).zip rest).filter
      (fun pq => decide ((1 : ℝ) / 1000000 ≤ eucDist pq.1 pq.2))).map Prod.snd)

/-- `np.linspace(a, b, n)` (endpoint included). -/
noncomputable def linspace (a b : ℝ) (n : ℕ) : List ℝ :=
  if n ≤ 1 then (List.range n).map (fun _ => a)
  else (List.range n).map (fun i : ℕ => a + (b - a) * (i : ℝ) / ((n : ℝ) - 1))

/-- `np.searchsorted(xs, q)` (side "left"): on a sorted list, the first index
whose element is not below `q`. -/
noncomputable def searchsortedLeft (q : ℝ) : List ℝ → ℕ
  | [] => 0
  | a :: rest => if a < q then searchsortedLeft q rest + 1 else 0

/-- `scipy.interpolate.interp1d(xs, ys, kind="linear",
fill_value="extrapolate")` evaluated at `q`: clamp the insertion index into
`[1, len-1]` and interpolate linearly on the segment below it (which
extrapolates beyond either end). -/
noncomputable def interpAt (xs ys : List ℝ) (q : ℝ) : ℝ :=
  let j := min (max (searchsortedLeft q xs) 1) (xs.length - 1)
  ys.getD (j - 1) 0 +
    (ys.getD j 0 - ys.getD (j - 1) 0) / (xs.getD j 0 - xs.getD (j - 1) 0) *
      (q - xs.getD (j - 1) 0)

/-- The cleaned polyline `resample_by_distance` interpolates on. -/
noncomputable def cleanedPoints (pts : List (ℝ × ℝ)) (thr : ℝ) : List (ℝ × ℝ) :=
  removeDups (removeSpikes pts thr)

/-- The uniform distance stations of `resample_by_distance`:
`np.linspace(0, total, ceil(total/step) + 1)`. -/
noncomputable def resampleGrid (pts : List (ℝ × ℝ)) (step thr : ℝ) : List ℝ :=
  linspace 0 (totalLength (cleanedPoints pts thr))
    ((Int.ceil (totalLength (cleanedPoints pts thr) / step)).toNat + 1)

/-- `resample_by_distance(x, y, step_m, spike_threshold_m)`: drop spike
successors, drop duplicate successors, recompute cumulative arc length, and
linearly interpolate both coordinates at the uniform stations. -/
noncomputable def resample_by_distance (pts : List (ℝ × ℝ)) (step thr : ℝ) :
    List (ℝ × ℝ) :=
  (resampleGrid pts step thr).map (fun d =>
    (interpAt (cumulative_distance (cleanedPoints pts thr))
        ((cleanedPoints pts thr).map Prod.fst) d,
      interpAt (cumulative_distance (cleanedPoints pts thr))
        ((cleanedPoints pts thr).map Prod.snd) d))

lemma filter_zip_map_snd (pts : List (ℝ × ℝ)) (f : (ℝ × ℝ) × (ℝ × ℝ) → Bool)
    (h : ∀ pq ∈ pts.zip pts.tail, f pq = true) :
    ((pts.zip pts.tail).filter f).map Prod.snd = pts.tail := by
  rw [List.filter_eq_self.mpr h]
  exact List.map_snd_zip pts pts.tail (List.length_tail pts ▸ Nat.sub_le _ _)

lemma removeSpikes_of_uniform (pts : List (ℝ × ℝ)) (step thr : ℝ)
    (hu : ∀ pq ∈ pts.zip pts.tail, eucDist pq.1 pq.2 = step)
    (hthr : step ≤ thr) :
    removeSpikes pts thr = pts := by
  cases pts with
  | nil => rfl
  | cons p rest =>
    have h' := filter_zip_map_snd (p :: rest)
      (fun pq => decide (eucDist pq.1 pq.2 ≤ thr)) ?_
    · rw [List.tail_cons] at h'
      rw [removeSpikes, h']
    · intro pq hpq
      rw [decide_eq_true_eq, hu pq hpq]
      exact hthr

lemma removeDups_of_uniform (pts : List (ℝ × ℝ)) (step : ℝ)
    (hu : ∀ pq ∈ pts.zip pts.tail, eucDist pq.1 pq.2 = step)
    (hmin : (1 : ℝ) / 1000000 ≤ step) :
    removeDups pts = pts := by
  cases pts with
  | nil => rfl
  | cons p rest =>
    have h' := filter_zip_map_snd (p :: rest)
      (fun pq => decide ((1 : ℝ) / 1000000 ≤ eucDist pq.1 pq.2)) ?_
    · rw [List.tail_cons] at h'
      rw [removeDups, h']
    · intro pq hpq
      rw [decide_eq_true_eq, hu pq hpq]
      exact hmin

lemma segmentLengths_of_uniform (pts : List (ℝ × ℝ)) (step : ℝ)
    (hu : ∀ pq ∈ pts.zip pts.tail, eucDist pq.1 pq.2 = step) :
    segmentLengths pts = List.replicate (pts.length - 1) step := by
  rw [List.eq_replicate_iff]
  refine ⟨segmentLengths_length pts, ?_⟩
  intro b hb
  rw [segmentLengths, List.mem_map] at hb
  obtain ⟨pq, hpq, rfl⟩ := hb
  exact hu pq hpq

lemma scanl_add_replicate (m : ℕ) (s : ℝ) :
    ∀ c : ℝ, (List.replicate m s).scanl (· + ·) c =
      (List.range (m + 1)).map (fun i : ℕ => c + (i : ℝ) * s) := by
  induction m with
  | zero =>
    intro c
    simp [List.range_succ]
  | succ m ih =>
    intro c
    have hr : List.range (m + 1 + 1) = 0 :: (List.range (m + 1)).map Nat.succ :=
      List.range_succ_eq_map (m + 1)
    rw [List.replicate_succ, List.scanl_cons, ih (c + s), hr, List.map_cons,
      List.map_map]
    rw [List.singleton_append, List.cons_eq_cons]
    refine ⟨by push_cast; ring, ?_⟩
    apply List.map_congr_left
    intro i _
    simp only [Function.comp_apply]
    push_cast
    ring

lemma cumulative_distance_of_uniform (pts : List (ℝ × ℝ)) (step : ℝ)
    (hu : ∀ pq ∈ pts.zip pts.tail, eucDist pq.1 pq.2 = step)
    (hne : pts ≠ []) :
    cumulative_distance pts =
      (List.range pts.length).map (fun i : ℕ => (i : ℝ) * step) := by
  have hlen : pts.length - 1 + 1 = pts.length :=
    Nat.succ_pred_eq_of_pos (List.length_pos_of_ne_nil hne)
  rw [cumulative_distance, segmentLengths_of_uniform pts step hu,
    scanl_add_replicate, hlen]
  apply List.map_congr_left
  intro i _
  ring

lemma searchsortedLeft_eq :
    ∀ (xs : List ℝ) (q : ℝ) (k : ℕ), k ≤ xs.length →
      (∀ i, i < k → xs.getD i 0 < q) →
      (∀ i, k ≤ i → i < xs.length → q ≤ xs.getD i 0) →
      searchsortedLeft q xs = k
  | [], q, k, hk, _, _ => by
    rw [searchsortedLeft]
    simp only [List.length_nil, Nat.le_zero] at hk
    omega
  | a :: rest, q, k, hk, hlow, hhigh => by
    cases k with
    | zero =>
      rw [searchsortedLeft, if_neg]
      push_neg
      simpa using hhigh 0 (le_refl 0) (by simp)
    | succ m =>
      rw [searchsortedLeft, if_pos (by simpa using hlow 0 (Nat.succ_pos m))]
      have hrec := searchsortedLeft_eq rest q m (by simpa using hk)
        (fun i hi => by simpa using hlow (i + 1) (by omega))
        (fun i hmi hi => by simpa using hhigh (i + 1) (by omega) (by simpa using hi))
      omega

lemma getD_range_map_mul (n i : ℕ) (s : ℝ) (hi : i < n) :
    ((List.range n).map (fun j : ℕ => (j : ℝ) * s)).getD i 0 = (i : ℝ) * s := by
  rw [List.getD_eq_getElem _ _ (by simpa using hi)]
  simp

lemma interpAt_arith (n k : ℕ) (s : ℝ) (ys : List ℝ) (hs : 0 < s) (hn : 2 ≤ n)
    (hk : k < n) :
    interpAt ((List.range n).map (fun j : ℕ => (j : ℝ) * s)) ys ((k : ℝ) * s) =
      ys.getD k 0 := by
  have hlen : ((List.range n).map (fun j : ℕ => (j : ℝ) * s)).length = n := by simp
  have hsearch :
      searchsortedLeft ((k : ℝ) * s) ((List.range n).map (fun j : ℕ => (j : ℝ) * s)) = k := by
    apply searchsortedLeft_eq
    · omega
    · intro i hik
      rw [getD_range_map_mul n i s (by omega)]
      have hir : (i : ℝ) < (k : ℝ) := by exact_mod_cast hik
      exact mul_lt_mul_of_pos_right hir hs
    · intro i hki hi
      rw [hlen] at hi
      rw [getD_range_map_mul n i s hi]
      have hir : (k : ℝ) ≤ (i : ℝ) := by exact_mod_cast hki
      exact mul_le_mul_of_nonneg_right hir (le_of_lt hs)
  rcases Nat.eq_zero_or_pos k with hk0 | hkpos
  · subst hk0
    have hj : min (max 0 1) (n - 1) = 1 := by omega
    simp only [interpAt, hsearch, hlen, hj]
    rw [getD_range_map_mul n 0 s (by omega)]
    push_cast
    ring
  · have hj : min (max k 1) (n - 1) = k := by omega
    simp only [interpAt, hsearch, hlen, hj]
    rw [getD_range_map_mul n k s hk, getD_range_map_mul n (k - 1) s (by omega)]
    have hcast : ((k - 1 : ℕ) : ℝ) = (k : ℝ) - 1 := by
      rw [Nat.cast_sub hkpos]
      simp
    rw [hcast]
    have hdiff : (k : ℝ) * s - ((k : ℝ) - 1) * s = s := by ring
    rw [hdiff, div_mul_cancel₀ _ (ne_of_gt hs)]
    ring

/-- C9: resampling is idempotent on an input already uniformly spaced at
`step_m` (every consecutive pair exactly `step` apart, `step` at least the
duplicate tolerance 1e-6 and at most the spike threshold): under exact
arithmetic `resample_by_distance` returns the very same point sequence, and
its station count is `ceil(total_length / step) + 1`. -/
theorem resample_by_distance_idempotent (pts : List (ℝ × ℝ)) (step thr : ℝ)
    (hlen2 : 2 ≤ pts.length)
    (huniform : ∀ pq ∈ pts.zip pts.tail, eucDist pq.1 pq.2 = step)
    (hmin : (1 : ℝ) / 1000000 ≤ step)
    (hthr : step ≤ thr) :
    resample_by_distance pts step thr = pts ∧
      (resample_by_distance pts step thr).length =
        (Int.ceil (totalLength pts / step)).toNat + 1 := by
  have hs : 0 < step := lt_of_lt_of_le (by norm_num) hmin
  have hne : pts ≠ [] := by
    intro h
    rw [h] at hlen2
    simp at hlen2
  have hclean : cleanedPoints pts thr = pts := by
    rw [cleanedPoints, removeSpikes_of_uniform pts step thr huniform hthr,
      removeDups_of_uniform pts step huniform hmin]
  have hcum : cumulative_distance pts =
      (List.range pts.length).map (fun i : ℕ => (i : ℝ) * step) :=
    cumulative_distance_of_uniform pts step huniform hne
  have htot : totalLength pts = ((pts.length - 1 : ℕ) : ℝ) * step := by
    rw [totalLength, cumulative_distance, segmentLengths_of_uniform pts step huniform,
      getLast?_scanl_add, List.sum_replicate, nsmul_eq_mul]
    ring
  have hceil : (Int.ceil (totalLength pts / step)).toNat = pts.length - 1 := by
    rw [htot, mul_div_assoc, div_self (ne_of_gt hs), mul_one, Int.ceil_natCast]
    simp
  have hnn : pts.length - 1 + 1 = pts.length := by omega
  have hn1 : ((pts.length - 1 : ℕ) : ℝ) = (pts.length : ℝ) - 1 := by
    rw [Nat.cast_sub (by omega)]
    simp
  have hne1 : (pts.length : ℝ) - 1 ≠ 0 := by
    have h2r : (2 : ℝ) ≤ (pts.length : ℝ) := by exact_mod_cast hlen2
    intro h
    linarith
  have hgrid : resampleGrid pts step thr =
      (List.range pts.length).map (fun i : ℕ => (i : ℝ) * step) := by
    rw [resampleGrid, hclean, hceil, hnn, htot, linspace, if_neg (by omega)]
    apply List.map_congr_left
    intro i _
    rw [hn1]
    field_simp
    ring
  constructor
  · rw [resample_by_distance, hclean, hgrid, hcum, List.map_map]
    apply List.ext_getElem
    · simp
    · intro i h1 h2i
      have hin : i < pts.length := h2i
      rw [List.getElem_map, List.getElem_range]
      simp only [Function.comp_apply]
      rw [interpAt_arith pts.length i step (pts.map Prod.fst) hs hlen2 hin,
        interpAt_arith pts.length i step (pts.map Prod.snd) hs hlen2 hin]
      rw [List.getD_eq_getElem (pts.map Prod.fst) 0 (by simpa using hin),
        List.getD_eq_getElem (pts.map Prod.snd) 0 (by simpa using hin)]
      rw [List.getElem_map, List.getElem_map]
  · rw [resample_by_distance, List.length_map, hgrid, List.length_map,
      List.length_range, hceil, hnn]

/-- Witness for `resample_by_distance_idempotent` on three collinear points
spaced 1 m apart, step 1 m, spike threshold 10 m. -/
theorem resample_by_distance_idempotent_witness :
    (2 ≤ ([((0 : ℝ), (0 : ℝ)), (1, 0), (2, 0)] : List (ℝ × ℝ)).length) ∧
      (∀ pq ∈ ([((0 : ℝ), (0 : ℝ)), (1, 0), (2, 0)] : List (ℝ × ℝ)).zip
          ([((0 : ℝ), (0 : ℝ)), (1, 0), (2, 0)] : List (ℝ × ℝ)).tail,
        eucDist pq.1 pq.2 = 1) ∧
      ((1 : ℝ) / 1000000 ≤ 1) ∧ ((1 : ℝ) ≤ 10) ∧
      (resample_by_distance [((0 : ℝ), (0 : ℝ)), (1, 0), (2, 0)] 1 10 =
          [((0 : ℝ), (0 : ℝ)), (1, 0), (2, 0)] ∧
        (resample_by_distance [((0 : ℝ), (0 : ℝ)), (1, 0), (2, 0)] 1 10).length =
          (Int.ceil (totalLength [((0 : ℝ), (0 : ℝ)), (1, 0), (2, 0)] / 1)).toNat + 1) := by
  have huni : ∀ pq ∈ ([((0 : ℝ), (0 : ℝ)), (1, 0), (2, 0)] : List (ℝ × ℝ)).zip
      ([((0 : ℝ), (0 : ℝ)), (1, 0), (2, 0)] : List (ℝ × ℝ)).tail,
      eucDist pq.1 pq.2 = 1 := by
    intro pq hpq
    simp only [List.tail_cons, List.zip_cons_cons, List.zip_nil_right,
      List.mem_cons, List.not_mem_nil, or_false] at hpq
    rcases hpq with rfl | rfl <;>
      · rw [eucDist]
        norm_num
  refine ⟨by simp, huni, by norm_num, by norm_num, ?_⟩
  exact resample_by_distance_idempotent [((0 : ℝ), (0 : ℝ)), (1, 0), (2, 0)] 1 10
    (by simp) huni (by norm_num) (by norm_num)

end Toyota
